import Mathlib

/-
Verification of the dnd-planner backend (FastAPI + SQLAlchemy + APScheduler).

Shallow embedding notes:
  * Timestamps are modelled as `Int` (seconds); `timedelta(hours=1)` is 3600.
  * The four persisted tables of app/models.py become lists of row
    structures.  Both association tables (`party_invites`,
    `party_attendees`) declare a composite primary key
    (party_id, user_id); therefore an INSERT that would duplicate such a
    key raises IntegrityError.  The guarded insert helpers below return
    `none` exactly in that case.
  * The SQLite engine of app/database.py never issues
    PRAGMA foreign_keys=ON, so the ON DELETE CASCADE clauses declared in
    app/models.py are inert at runtime: bulk deletes remove only the rows
    they name.
  * Route handlers become functions `Sys -> args -> Except ApiError r × Sys`
    where the returned `Sys` is the state that ends up persisted (on an
    error the SQLAlchemy session is rolled back or closed uncommitted, so
    the pre-state is returned, except where an intermediate commit already
    persisted a prefix of the work).
  * The APScheduler BackgroundScheduler becomes a list of one-shot jobs
    keyed by party id; `add_job` with `replace_existing=True` drops any
    job with the same id before adding the new one.
  * Outbound email is an external collaborator: a send either succeeds or
    raises SMTPException.  It is modelled by an oracle `ok : String → Bool`
    telling which recipient addresses a send succeeds for, and the fire
    handler returns the list of addresses for which a send was attempted.
-/

namespace DndPlanner

/-- Invite status enumeration, from app.models.InviteStatus. -/
inductive InviteStatus where
  | PENDING
  | ACCEPTED
  | DECLINED
deriving DecidableEq, Repr

/-- Row of the users table (app.models.User).  The columns username and
email carry UNIQUE constraints. -/
structure UserRow where
  id : Nat
  username : String
  email : String
  hashed_password : String
  is_admin : Bool
deriving DecidableEq, Repr

/-- Row of the parties table (app.models.Party).  The creator_id column is
nullable (the ORM sets it to NULL when a referenced user is deleted
through the ORM), hence `Option Nat`. -/
structure PartyRow where
  id : Nat
  title : String
  platform : String
  date_time : Int
  description : String
  creator_id : Option Nat
deriving DecidableEq, Repr

/-- Row of the party_invites association table: composite primary key
(party_id, user_id) plus a status column. -/
structure InviteRow where
  party_id : Nat
  user_id : Nat
  status : InviteStatus
deriving DecidableEq, Repr

/-- Row of the party_attendees association table: composite primary key
(party_id, user_id), no further state. -/
structure AttendeeRow where
  party_id : Nat
  user_id : Nat
deriving DecidableEq, Repr

/-- The persisted database state: the four tables of app/models.py. -/
structure DB where
  users : List UserRow
  parties : List PartyRow
  invites : List InviteRow
  attendees : List AttendeeRow
deriving DecidableEq, Repr

/-- One armed APScheduler job: a DateTrigger job whose id encodes the
party id, holding its run date. -/
structure ReminderJob where
  party_id : Nat
  run_date : Int
deriving DecidableEq, Repr

/-- The PartyScheduler job table (app.schedular.PartyScheduler): at most
one job per party id, maintained by replace_existing. -/
structure Scheduler where
  jobs : List ReminderJob
deriving DecidableEq, Repr

/-- Whole-system state: database plus in-memory scheduler. -/
structure Sys where
  db : DB
  sched : Scheduler
deriving DecidableEq, Repr

/-- Errors surfaced by a route: an explicit HTTPException(status, detail),
or an IntegrityError escaping from the database driver (which FastAPI
turns into a generic 500 response). -/
inductive ApiError where
  | http : Nat → String → ApiError
  | integrityError : ApiError
deriving DecidableEq, Repr

/-- Printable form of an exception, standing for the str(e) that
respond_to_invite interpolates into its catch-all HTTPException. -/
def exceptionText : ApiError → String
  | .http code detail => toString code ++ ": " ++ detail
  | .integrityError => "IntegrityError"

/-- Query Party by primary key: db.query(Party).filter(Party.id == party_id).first(). -/
def findParty (db : DB) (party_id : Nat) : Option PartyRow :=
  db.parties.find? (fun p => p.id == party_id)

/-- Select from party_invites by the composite key, as in the
where user_id / where party_id select of the routes. -/
def findInvite (db : DB) (user_id party_id : Nat) : Option InviteRow :=
  db.invites.find? (fun i => i.user_id == user_id && i.party_id == party_id)

/-- INSERT INTO party_invites: the composite primary key
(party_id, user_id) makes a duplicate insert raise IntegrityError,
modelled as `none`. -/
def insertInvite (db : DB) (party_id user_id : Nat) (status : InviteStatus) : Option DB :=
  if db.invites.any (fun i => i.party_id == party_id && i.user_id == user_id) then
    none
  else
    some { db with invites := db.invites ++ [⟨party_id, user_id, status⟩] }

/-- INSERT INTO party_attendees: duplicate composite key raises
IntegrityError, modelled as `none`. -/
def insertAttendee (db : DB) (party_id user_id : Nat) : Option DB :=
  if db.attendees.any (fun a => a.party_id == party_id && a.user_id == user_id) then
    none
  else
    some { db with attendees := db.attendees ++ [⟨party_id, user_id⟩] }

/-- Follow the party.attendees relationship (join through party_attendees
to users) and project each attendee to its email address, in table order. -/
def party_attendee_emails (db : DB) (party_id : Nat) : List String :=
  (db.attendees.filter (fun a => a.party_id == party_id)).filterMap
    (fun a => (db.users.find? (fun u => u.id == a.user_id)).map (fun u => u.email))

/-- PartyScheduler.schedule_party_reminder: computes party_time - 1h and
arms a one-shot job only when that moment is strictly in the future;
add_job with replace_existing=True first drops any job with the same id. -/
def schedule_party_reminder (self : Scheduler) (now : Int) (party_id : Nat) (party_time : Int) : Scheduler :=
  let reminder_time := party_time - 3600
  if reminder_time > now then
    { jobs := self.jobs.filter (fun j => j.party_id != party_id) ++ [⟨party_id, reminder_time⟩] }
  else
    self

/-- PartyScheduler.remove_party_reminder: drops the job for the party id
if one exists, otherwise a no-op. -/
def remove_party_reminder (self : Scheduler) (party_id : Nat) : Scheduler :=
  { jobs := self.jobs.filter (fun j => j.party_id != party_id) }

/-- The body of the send loop of PartyScheduler._send_party_reminder: the
emails are attempted in order; a send whose oracle answer is false raises
SMTPException, which propagates (there is no per-recipient handler), so
the loop stops right after the failing attempt.  Returns the addresses a
send was attempted for. -/
def attempt_sends : List String → (String → Bool) → List String
  | [], _ => []
  | e :: rest, ok => if ok e then e :: attempt_sends rest ok else [e]

/-- PartyScheduler._send_party_reminder: re-reads the party at fire time;
if the party row is gone the handler sends nothing, otherwise it walks
the current attendee list.  Returns the addresses a send was attempted
for. -/
def send_party_reminder (db : DB) (party_id : Nat) (ok : String → Bool) : List String :=
  match findParty db party_id with
  | none => []
  | some _ => attempt_sends (party_attendee_emails db party_id) ok

/-- Body of schemas.PartyCreate: the creation payload (invite_emails
listed separately from the column fields). -/
structure PartyCreate where
  title : String
  platform : String
  date_time : Int
  description : String
  invite_emails : List String
deriving DecidableEq, Repr

/-- Body of schemas.PartyUpdate: all fields optional (partial update). -/
structure PartyUpdate where
  title : Option String := none
  platform : Option String := none
  date_time : Option Int := none
  description : Option String := none
deriving DecidableEq, Repr

/-- Body of schemas.UserUpdate: all fields optional. -/
structure UserUpdate where
  username : Option String := none
  email : Option String := none
  password : Option String := none
deriving DecidableEq, Repr

/-- auth.get_password_hash is an external collaborator (bcrypt via
passlib); modelled as an abstract tagging function, faithful in that no
claim depends on the hash contents. -/
def get_password_hash (password : String) : String :=
  "bcrypt$" ++ password

/-- Fresh SQLite rowid for an insert into parties: max existing id + 1. -/
def freshPartyId (db : DB) : Nat :=
  (db.parties.map (fun p => p.id)).foldr max 0 + 1

/-- Fresh SQLite rowid for an insert into users: max existing id + 1. -/
def freshUserId (db : DB) : Nat :=
  (db.users.map (fun u => u.id)).foldr max 0 + 1

/-- The invite-insertion loop of create_party, one guarded INSERT per
resolved user id; an IntegrityError propagates out of the handler,
modelled as `none`. -/
def insertInvitesLoop (db : DB) (party_id : Nat) : List Nat → Option DB
  | [] => some db
  | u :: rest =>
    match insertInvite db party_id u .PENDING with
    | none => none
    | some db1 => insertInvitesLoop db1 party_id rest

/-- Second half of create_party: run the invite-insertion loop and
commit.  If an invite INSERT raises IntegrityError, the party row stays
(it was committed before the loop) while the invite inserts of this
session roll back and the error escapes unhandled. -/
def create_party_commit (db1 : DB) (sched1 : Scheduler) (pid : Nat) (uids : List Nat) :
    Except ApiError Nat × Sys :=
  match insertInvitesLoop db1 pid uids with
  | none => (.error .integrityError, ⟨db1, sched1⟩)
  | some db2 => (.ok pid, ⟨db2, sched1⟩)

/-- POST / of party_routes (create_party): commits the new party row,
arms the reminder, then for each distinct invite email that resolves to
a known user inserts a PENDING invite (unknown emails silently skipped)
and commits again. -/
def create_party (s : Sys) (now : Int) (current_user_id : Nat) (party : PartyCreate) :
    Except ApiError Nat × Sys :=
  let pid := freshPartyId s.db
  let row : PartyRow :=
    ⟨pid, party.title, party.platform, party.date_time, party.description, some current_user_id⟩
  let db1 : DB := { s.db with parties := s.db.parties ++ [row] }
  let sched1 := schedule_party_reminder s.sched now pid party.date_time
  let uids := (party.invite_emails.eraseDups).filterMap
    (fun e => (db1.users.find? (fun u => u.email == e)).map (fun u => u.id))
  create_party_commit db1 sched1 pid uids

/-- Tail of the accept branch of respond_to_invite: the attendee INSERT
plus commit.  A duplicate-key IntegrityError is caught by the catch-all
handler, which rolls back (state reverts to the pre-call `s`) and
surfaces HTTPException(500, str(e)). -/
def respond_accept_commit (s : Sys) (db1 : DB) (party_id current_user_id : Nat) :
    Except ApiError InviteStatus × Sys :=
  match insertAttendee db1 party_id current_user_id with
  | none => (.error (.http 500 (exceptionText .integrityError)), s)
  | some db2 => (.ok .ACCEPTED, { s with db := db2 })

/-- PUT /party_id/respond-invite (respond_to_invite of party_routes).
The whole body sits in a try/except Exception block whose handler rolls
back and raises HTTPException(500, str(e)); since HTTPException is an
Exception subclass, the two 404 raises inside the try are caught there
too and resurface with status 500, as does the IntegrityError of a
duplicate attendee insert.  The status written by the UPDATE is ACCEPTED
when accept else DECLINED. -/
def respond_to_invite (s : Sys) (current_user_id party_id : Nat) (accept : Bool) :
    Except ApiError InviteStatus × Sys :=
  match findParty s.db party_id with
  | none => (.error (.http 500 (exceptionText (.http 404 "Party not found"))), s)
  | some _ =>
    match findInvite s.db current_user_id party_id with
    | none => (.error (.http 500 (exceptionText (.http 404 "Invite not found"))), s)
    | some _ =>
      let status := if accept then InviteStatus.ACCEPTED else InviteStatus.DECLINED
      let db1 : DB := { s.db with invites := s.db.invites.map (fun i =>
          if i.user_id == current_user_id && i.party_id == party_id then
            { i with status := status }
          else i) }
      if accept then
        respond_accept_commit s db1 party_id current_user_id
      else
        (.ok .DECLINED, { s with db := db1 })

/-- Apply the exclude_unset field loop of update_party, which skips the
date_time field (handled separately in the reschedule branch). -/
def applyPartyUpdate (p : PartyRow) (upd : PartyUpdate) : PartyRow :=
  { p with
    title := upd.title.getD p.title,
    platform := upd.platform.getD p.platform,
    description := upd.description.getD p.description }

/-- PUT /party_id (update_party of party_routes): a missing party and a
non-creator actor raise the same HTTPException(404, "Party not found or
unauthorized").  When date_time is supplied and differs from the stored
value, the old reminder is removed and a new one armed before the field
is set; other supplied fields are updated unconditionally.  The ad hoc
timezone patch of the source copies tzinfo between naive and aware
values before comparing; with timestamps as plain Int the comparison is
plain equality. -/
def update_party (s : Sys) (now : Int) (current_user_id party_id : Nat) (upd : PartyUpdate) :
    Except ApiError PartyRow × Sys :=
  match findParty s.db party_id with
  | none => (.error (.http 404 "Party not found or unauthorized"), s)
  | some party =>
    if party.creator_id != some current_user_id then
      (.error (.http 404 "Party not found or unauthorized"), s)
    else
      let step :=
        match upd.date_time with
        | some new_dt =>
          if new_dt != party.date_time then
            (schedule_party_reminder (remove_party_reminder s.sched party_id) now party_id new_dt,
             { party with date_time := new_dt })
          else (s.sched, party)
        | none => (s.sched, party)
      let party2 := applyPartyUpdate step.2 upd
      let db1 : DB := { s.db with parties := s.db.parties.map (fun p =>
          if p.id == party_id then party2 else p) }
      (.ok party2, ⟨db1, step.1⟩)

/-- DELETE /party_id (delete_party of party_routes): the lookup filters
on id and creator together, so a missing party and a foreign party both
raise the same HTTPException(404, "Party not found or unauthorized").
On success it bulk-deletes the invite and attendee rows of the party and
the party row itself; the scheduler is never touched here. -/
def delete_party (s : Sys) (current_user_id party_id : Nat) :
    Except ApiError Unit × Sys :=
  match s.db.parties.find? (fun p => p.id == party_id && p.creator_id == some current_user_id) with
  | none => (.error (.http 404 "Party not found or unauthorized"), s)
  | some _ =>
    let db1 : DB := { s.db with
      invites := s.db.invites.filter (fun i => i.party_id != party_id),
      attendees := s.db.attendees.filter (fun a => a.party_id != party_id),
      parties := s.db.parties.filter (fun p => p.id != party_id) }
    (.ok (), { s with db := db1 })

/-- POST /party_id/join-request (request_to_join of party_routes).  The
handler INSERTs the PENDING row first and only afterwards SELECTs for an
existing record; the SELECT runs on the same uncommitted session, so it
always sees at least the row just inserted and the 400 branch is always
taken (the session then closes without commit, rolling the insert back).
When a record already existed, the INSERT itself raises IntegrityError
on the composite primary key. -/
def request_to_join (s : Sys) (current_user_id party_id : Nat) :
    Except ApiError Unit × Sys :=
  match findParty s.db party_id with
  | none => (.error (.http 404 "Party not found"), s)
  | some _ =>
    match insertInvite s.db party_id current_user_id .PENDING with
    | none => (.error .integrityError, s)
    | some db1 =>
      if (findInvite db1 current_user_id party_id).isSome then
        (.error (.http 400 "You have already requested to join this party"), s)
      else
        (.ok (), { s with db := db1 })

/-- DELETE /party_id/attendees/user_id (remove_attendee of party_routes):
missing party and non-creator actor raise the same 404; on success the
attendee row of the pair is deleted, invites untouched. -/
def remove_attendee (s : Sys) (current_user_id party_id user_id : Nat) :
    Except ApiError Unit × Sys :=
  match findParty s.db party_id with
  | none => (.error (.http 404 "Party not found or unauthorized"), s)
  | some party =>
    if party.creator_id != some current_user_id then
      (.error (.http 404 "Party not found or unauthorized"), s)
    else
      let db1 : DB := { s.db with
        attendees := s.db.attendees.filter
          (fun a => !(a.user_id == user_id && a.party_id == party_id)) }
      (.ok (), { s with db := db1 })

/-- DELETE /me of user_routes (delete_user_account): bulk-deletes the
invite rows of the user, the attendee rows of the user, the party rows
the user created, then the user row.  No scheduler call is made, and
with foreign keys unenforced on the SQLite connection the bulk party
delete does not cascade to other users rows for those parties. -/
def delete_user_account (s : Sys) (current_user_id : Nat) :
    Except ApiError Unit × Sys :=
  let db1 : DB := {
    users := s.db.users.filter (fun u => u.id != current_user_id),
    parties := s.db.parties.filter (fun p => p.creator_id != some current_user_id),
    invites := s.db.invites.filter (fun i => i.user_id != current_user_id),
    attendees := s.db.attendees.filter (fun a => a.user_id != current_user_id) }
  (.ok (), { s with db := db1 })

/-- POST /auth/signup (signup of auth_routes): the handler checks only
for a duplicate email before inserting; the INSERT itself is subject to
the UNIQUE constraints on both username and email, so a fresh email with
a taken username raises IntegrityError out of db.commit(), unhandled. -/
def signup (s : Sys) (username email password : String) :
    Except ApiError Nat × Sys :=
  if s.db.users.any (fun u => u.email == email) then
    (.error (.http 400 "Email already registered"), s)
  else
    if s.db.users.any (fun u => u.username == username || u.email == email) then
      (.error .integrityError, s)
    else
      let uid := freshUserId s.db
      let row : UserRow := ⟨uid, username, email, get_password_hash password, false⟩
      (.ok uid, { s with db := { s.db with users := s.db.users ++ [row] } })

/-- Apply the truthiness-guarded field updates of user_routes.update_user
(an empty string is falsy in Python, so it is skipped). -/
def applyUserUpdate (u : UserRow) (upd : UserUpdate) : UserRow :=
  let u1 := match upd.username with
            | some v => if v != "" then { u with username := v } else u
            | none => u
  let u2 := match upd.email with
            | some v => if v != "" then { u1 with email := v } else u1
            | none => u1
  match upd.password with
  | some v => if v != "" then { u2 with hashed_password := get_password_hash v } else u2
  | none => u2

/-- PUT /me of user_routes (update_user): mutates the authenticated user
row and commits; a collision with another row on the UNIQUE username or
email columns raises IntegrityError at commit, rolling back. -/
def update_user (s : Sys) (current_user_id : Nat) (upd : UserUpdate) :
    Except ApiError Unit × Sys :=
  match s.db.users.find? (fun u => u.id == current_user_id) with
  | none => (.ok (), s)
  | some u =>
    let u1 := applyUserUpdate u upd
    if s.db.users.any (fun v => v.id != u.id && (v.username == u1.username || v.email == u1.email)) then
      (.error .integrityError, s)
    else
      (.ok (), { s with db := { s.db with users := s.db.users.map (fun v =>
          if v.id == u.id then u1 else v) } })

/-- DELETE /users/user_id of admin_routes (delete_user): an ORM-level
delete of the user row.  The ORM removes the party_attendees association
rows of the user (the attending_parties secondary relationship) and sets
creator_id to NULL on the parties the user created; the party_invites
table has no relationship declared from the User side, so those rows are
left in place. -/
def admin_delete_user (s : Sys) (user_id : Nat) :
    Except ApiError Unit × Sys :=
  match s.db.users.find? (fun u => u.id == user_id) with
  | none => (.error (.http 404 "User not found"), s)
  | some _ =>
    let db1 : DB := { s.db with
      users := s.db.users.filter (fun u => u.id != user_id),
      attendees := s.db.attendees.filter (fun a => a.user_id != user_id),
      parties := s.db.parties.map (fun p =>
        if p.creator_id == some user_id then { p with creator_id := none } else p) }
    (.ok (), { s with db := db1 })

/-- One mutating operation of the system: each constructor is one of the
state-changing route handlers (the remaining routes only read, and a
reminder fire only reads the database). -/
inductive Op where
  | signupOp (username email password : String)
  | updateUser (current_user_id : Nat) (upd : UserUpdate)
  | adminDeleteUser (user_id : Nat)
  | deleteUserAccount (current_user_id : Nat)
  | createParty (now : Int) (current_user_id : Nat) (party : PartyCreate)
  | respondToInvite (current_user_id party_id : Nat) (accept : Bool)
  | updateParty (now : Int) (current_user_id party_id : Nat) (upd : PartyUpdate)
  | deleteParty (current_user_id party_id : Nat)
  | removeAttendee (current_user_id party_id user_id : Nat)
  | requestToJoin (current_user_id party_id : Nat)

/-- Run one operation and keep the persisted post-state. -/
def runOp (s : Sys) : Op → Sys
  | .signupOp username email password => (signup s username email password).2
  | .updateUser uid upd => (update_user s uid upd).2
  | .adminDeleteUser uid => (admin_delete_user s uid).2
  | .deleteUserAccount uid => (delete_user_account s uid).2
  | .createParty now uid party => (create_party s now uid party).2
  | .respondToInvite uid pid accept => (respond_to_invite s uid pid accept).2
  | .updateParty now uid pid upd => (update_party s now uid pid upd).2
  | .deleteParty uid pid => (delete_party s uid pid).2
  | .removeAttendee uid pid target => (remove_attendee s uid pid target).2
  | .requestToJoin uid pid => (request_to_join s uid pid).2

/-- Composite keys of the party_invites table. -/
def inviteKeys (db : DB) : List (Nat × Nat) :=
  db.invites.map (fun i => (i.party_id, i.user_id))

/-- Composite keys of the party_attendees table. -/
def attendeeKeys (db : DB) : List (Nat × Nat) :=
  db.attendees.map (fun a => (a.party_id, a.user_id))

/-- The uniqueness invariant of the two association tables: at most one
invite row and at most one attendee row per (party, user) pair. -/
def UniqueKeys (db : DB) : Prop :=
  (inviteKeys db).Nodup ∧ (attendeeKeys db).Nodup

/-- Sample user: creator of the sample party. -/
def alice : UserRow := ⟨1, "alice", "alice@example.com", "h1", false⟩

/-- Sample user: an invitee. -/
def bob : UserRow := ⟨2, "bob", "bob@example.com", "h2", false⟩

/-- Sample user: a second invitee. -/
def carol : UserRow := ⟨3, "carol", "carol@example.com", "h3", false⟩

/-- Sample party, created by alice. -/
def questParty : PartyRow := ⟨1, "Quest Night", "Roll20", 10000, "weekly session", some 1⟩

/-- Base state: two users, one party, no invites, no attendees, no jobs. -/
def sysBase : Sys := ⟨⟨[alice, bob], [questParty], [], []⟩, ⟨[]⟩⟩

/-- State with a PENDING invite for (bob, questParty). -/
def sysPending : Sys := ⟨⟨[alice, bob], [questParty], [⟨1, 2, .PENDING⟩], []⟩, ⟨[]⟩⟩

/-- State where bob accepted: the invite is ACCEPTED, the attendee row
exists, and a reminder job for the party is armed. -/
def sysAccepted : Sys :=
  ⟨⟨[alice, bob], [questParty], [⟨1, 2, .ACCEPTED⟩], [⟨1, 2⟩]⟩, ⟨[⟨1, 100⟩]⟩⟩

/-- State with two attendees (bob and carol) on the sample party. -/
def sysTwoAttendees : Sys :=
  ⟨⟨[alice, bob, carol], [questParty], [⟨1, 2, .ACCEPTED⟩, ⟨1, 3, .ACCEPTED⟩],
    [⟨1, 2⟩, ⟨1, 3⟩]⟩, ⟨[]⟩⟩

/-- The empty initial state (fresh database, no armed jobs). -/
def initSys : Sys := ⟨⟨[], [], [], []⟩, ⟨[]⟩⟩

/-- Run a sequence of operations from a state. -/
def runOps (s : Sys) (ops : List Op) : Sys := ops.foldl runOp s

/-- C1: request_to_join never succeeds.  With party 1 present and no
invite record for (bob, party 1), the handler inserts the PENDING row
and then finds that very row in its existence check, so it raises
HTTPException(400) and the session rolls back: no record is created and
no success is possible.  When a record already exists the INSERT itself
raises IntegrityError (500), not the documented Conflict. -/
theorem request_to_join_always_rejected :
    (request_to_join sysBase 2 1).1 =
      .error (.http 400 "You have already requested to join this party")
    ∧ (request_to_join sysBase 2 1).2 = sysBase
    ∧ (request_to_join sysPending 2 1).1 = .error .integrityError
    ∧ (request_to_join sysPending 2 1).2 = sysPending :=
  ⟨rfl, rfl, rfl, rfl⟩

/-- C3: respond_to_invite wraps its whole body in a catch-all except
block that rolls back and re-raises HTTPException(500, str(e)); since
HTTPException is an Exception subclass, the 404 raised for a missing
party and the 404 raised for a missing invite are both caught there and
surface with status 500, the same status as an internal error. -/
theorem respond_not_found_masked_as_500 :
    (respond_to_invite sysBase 2 999 true).1 = .error (.http 500 "404: Party not found")
    ∧ (respond_to_invite sysBase 2 999 true).2 = sysBase
    ∧ (respond_to_invite sysBase 2 1 true).1 = .error (.http 500 "404: Invite not found")
    ∧ (respond_to_invite sysBase 2 1 true).2 = sysBase :=
  ⟨rfl, rfl, rfl, rfl⟩

/-- C2 counterexample: the creator deletes the party; the invite and
attendee rows are removed, but the armed reminder job for the party is
still in the scheduler afterwards — delete_party never calls
remove_party_reminder, refuting the claim that the job is disarmed. -/
theorem delete_party_job_not_disarmed :
    (delete_party sysAccepted 1 1).1 = .ok ()
    ∧ (delete_party sysAccepted 1 1).2.db.invites = []
    ∧ (delete_party sysAccepted 1 1).2.db.attendees = []
    ∧ (delete_party sysAccepted 1 1).2.sched.jobs = [⟨1, 100⟩]
    ∧ sysAccepted.sched.jobs ≠ [] :=
  ⟨rfl, rfl, rfl, rfl, by decide⟩

/-- C4 counterexample: bob re-responds with accept to his already
ACCEPTED invite (attendee row present); the duplicate attendee INSERT
raises IntegrityError, the catch-all turns it into a 500 and rolls
back — re-responding with the same value fails instead of being an
idempotent overwrite. -/
theorem respond_again_accept_fails :
    (respond_to_invite sysAccepted 2 1 true).1 = .error (.http 500 "IntegrityError")
    ∧ (respond_to_invite sysAccepted 2 1 true).2 = sysAccepted :=
  ⟨rfl, rfl⟩

/-- C5 counterexample: the party has two attendees, bob then carol; the
send to bob raises, and because the loop body has no exception handler
the fire aborts: carol is never attempted. -/
theorem reminder_failure_blocks_remaining :
    send_party_reminder sysTwoAttendees.db 1 (fun e => e != "bob@example.com")
      = ["bob@example.com"]
    ∧ "carol@example.com" ∉
      send_party_reminder sysTwoAttendees.db 1 (fun e => e != "bob@example.com") :=
  ⟨rfl, by decide⟩

/-- C6 counterexample: a non-creator updating or deleting an existing
party receives exactly the same error value, HTTPException(404, "Party
not found or unauthorized"), as when the party does not exist at all —
the Unauthorized condition is not distinguishable from NotFound.  The
state is left unchanged. -/
theorem unauthorized_equals_not_found :
    (update_party sysBase 0 2 1 {}).1 = .error (.http 404 "Party not found or unauthorized")
    ∧ (delete_party sysBase 2 1).1 = .error (.http 404 "Party not found or unauthorized")
    ∧ (update_party sysBase 0 2 999 {}).1 = (update_party sysBase 0 2 1 {}).1
    ∧ (delete_party sysBase 2 999).1 = (delete_party sysBase 2 1).1
    ∧ (update_party sysBase 0 2 1 {}).2 = sysBase
    ∧ (delete_party sysBase 2 1).2 = sysBase :=
  ⟨rfl, rfl, rfl, rfl, rfl, rfl⟩

/-- C9 counterexample: alice (creator of party 1, which has an armed
reminder job and bob as invitee and attendee) deletes her account; the
party row goes away, but bobs invite row, bobs attendee row and the
reminder job for the deleted party all remain — the per-party cascade
claimed for account deletion does not happen. -/
theorem delete_account_no_party_cascade :
    (delete_user_account sysAccepted 1).1 = .ok ()
    ∧ (delete_user_account sysAccepted 1).2.db.parties = []
    ∧ (delete_user_account sysAccepted 1).2.db.invites = [⟨1, 2, .ACCEPTED⟩]
    ∧ (delete_user_account sysAccepted 1).2.db.attendees = [⟨1, 2⟩]
    ∧ (delete_user_account sysAccepted 1).2.sched.jobs = [⟨1, 100⟩] :=
  ⟨rfl, rfl, rfl, rfl, rfl⟩

theorem filter_key_after_replace (l : List ReminderJob) (pid : Nat) (j : ReminderJob)
    (hj : j.party_id = pid) :
    (l.filter (fun k => k.party_id != pid) ++ [j]).filter (fun k => k.party_id == pid) = [j] := by
  induction l with
  | nil => simp [hj]
  | cons a t ih =>
    by_cases h : a.party_id = pid
    · simp [List.filter_cons, h, ih]
    · simp [List.filter_cons, h, ih]

/-- C7: schedule_party_reminder arms a job exactly when the start time
minus one hour is strictly after the clock.  When armed, the replace
semantics of add_job leave exactly the new job for that party id; when
the fire time is at or before now, the scheduler state is untouched (a
silent no-op, so a party without a prior job ends with zero jobs). -/
theorem schedule_party_reminder_spec (sched : Scheduler) (now : Int) (pid : Nat) (t : Int) :
    (t - 3600 > now →
      (schedule_party_reminder sched now pid t).jobs.filter (fun j => j.party_id == pid)
        = [⟨pid, t - 3600⟩])
    ∧ (t - 3600 ≤ now → schedule_party_reminder sched now pid t = sched) := by
  constructor
  · intro h
    unfold schedule_party_reminder
    rw [if_pos h]
    exact filter_key_after_replace sched.jobs pid ⟨pid, t - 3600⟩ rfl
  · intro h
    unfold schedule_party_reminder
    rw [if_neg (by omega)]

/-- Witness for C7 at concrete inputs: arming with a future fire time
replaces the old job of party 1, and arming with a past fire time leaves
the scheduler untouched. -/
theorem schedule_party_reminder_spec_witness :
    (schedule_party_reminder ⟨[⟨1, 50⟩, ⟨2, 80⟩]⟩ 0 1 3700).jobs.filter
      (fun j => j.party_id == 1) = [⟨1, 100⟩]
    ∧ schedule_party_reminder ⟨[⟨1, 50⟩, ⟨2, 80⟩]⟩ 0 1 3600 = ⟨[⟨1, 50⟩, ⟨2, 80⟩]⟩ :=
  ⟨(schedule_party_reminder_spec ⟨[⟨1, 50⟩, ⟨2, 80⟩]⟩ 0 1 3700).1 (by decide),
   (schedule_party_reminder_spec ⟨[⟨1, 50⟩, ⟨2, 80⟩]⟩ 0 1 3600).2 (by decide)⟩

theorem attempt_sends_stops (pre : List String) (bad : String) (rest : List String)
    (ok : String → Bool) (hpre : ∀ e ∈ pre, ok e = true) (hbad : ok bad = false) :
    attempt_sends (pre ++ bad :: rest) ok = pre ++ [bad] := by
  induction pre with
  | nil => simp [attempt_sends, hbad]
  | cons a t ih =>
    have ha : ok a = true := hpre a (by simp)
    have ih2 := ih (fun e he => hpre e (by simp [he]))
    simp [attempt_sends, ha, ih2]

/-- C5 amended: when a reminder fires and the send to some attendee
fails, the SMTPException propagates out of the loop, so the attempted
recipients are exactly the successful prefix plus the failing one;
attendees after the failure get no send attempt. -/
theorem reminder_send_stops_at_failure (db : DB) (pid : Nat) (ok : String → Bool)
    (pre : List String) (bad : String) (rest : List String)
    (hp : (findParty db pid).isSome)
    (he : party_attendee_emails db pid = pre ++ bad :: rest)
    (hpre : ∀ e ∈ pre, ok e = true) (hbad : ok bad = false) :
    send_party_reminder db pid ok = pre ++ [bad] := by
  obtain ⟨p, hfp⟩ := Option.isSome_iff_exists.mp hp
  unfold send_party_reminder
  rw [hfp, he]
  exact attempt_sends_stops pre bad rest ok hpre hbad

/-- Witness for C5 amended: with attendees bob then carol and a send
that fails on carol, the attempted list is bob then carol and stops
there. -/
theorem reminder_send_stops_at_failure_witness :
    send_party_reminder sysTwoAttendees.db 1 (fun e => e != "carol@example.com")
      = ["bob@example.com", "carol@example.com"] :=
  reminder_send_stops_at_failure sysTwoAttendees.db 1 (fun e => e != "carol@example.com")
    ["bob@example.com"] "carol@example.com" [] (by decide) (by decide)
    (by decide) (by decide)

/-- C2 amended: when the acting user is the creator of an existing
party, delete_party succeeds, removes exactly the invite and attendee
rows referencing the party (other rows are kept) and the party row, and
a subsequent reminder fire for the party id attempts no sends; the
scheduler itself is untouched, so any armed job for the party survives
(it fires as a no-op instead of being disarmed). -/
theorem delete_party_cascade_fire_noop (s : Sys) (uid pid : Nat) (ok : String → Bool)
    (hex : ∃ p ∈ s.db.parties, p.id = pid ∧ p.creator_id = some uid) :
    (delete_party s uid pid).1 = .ok ()
    ∧ (∀ i ∈ (delete_party s uid pid).2.db.invites, i.party_id ≠ pid)
    ∧ (∀ i ∈ s.db.invites, i.party_id ≠ pid → i ∈ (delete_party s uid pid).2.db.invites)
    ∧ (∀ a ∈ (delete_party s uid pid).2.db.attendees, a.party_id ≠ pid)
    ∧ (∀ a ∈ s.db.attendees, a.party_id ≠ pid → a ∈ (delete_party s uid pid).2.db.attendees)
    ∧ (∀ p ∈ (delete_party s uid pid).2.db.parties, p.id ≠ pid)
    ∧ (delete_party s uid pid).2.sched = s.sched
    ∧ send_party_reminder (delete_party s uid pid).2.db pid ok = [] := by
  obtain ⟨p, hmem, hid, hcr⟩ := hex
  have hsome : (s.db.parties.find? (fun q => q.id == pid && q.creator_id == some uid)).isSome := by
    rw [List.find?_isSome]
    exact ⟨p, hmem, by simp [hid, hcr]⟩
  obtain ⟨q, hq⟩ := Option.isSome_iff_exists.mp hsome
  unfold delete_party
  rw [hq]
  refine ⟨rfl, ?_, ?_, ?_, ?_, ?_, rfl, ?_⟩
  · intro i hi
    simp only [List.mem_filter, bne_iff_ne, ne_eq] at hi
    exact hi.2
  · intro i hi hne
    simp only [List.mem_filter, bne_iff_ne, ne_eq]
    exact ⟨hi, hne⟩
  · intro a ha
    simp only [List.mem_filter, bne_iff_ne, ne_eq] at ha
    exact ha.2
  · intro a ha hne
    simp only [List.mem_filter, bne_iff_ne, ne_eq]
    exact ⟨ha, hne⟩
  · intro r hr
    simp only [List.mem_filter, bne_iff_ne, ne_eq] at hr
    exact hr.2
  · unfold send_party_reminder
    have hnone : findParty
        { s.db with
          invites := s.db.invites.filter (fun i => i.party_id != pid),
          attendees := s.db.attendees.filter (fun a => a.party_id != pid),
          parties := s.db.parties.filter (fun r => r.id != pid) } pid = none := by
      unfold findParty
      rw [List.find?_eq_none]
      intro r hr
      simp only [List.mem_filter, bne_iff_ne, ne_eq] at hr
      simp [hr.2]
    rw [hnone]

/-- Witness for C2 amended: in the accepted-state sample, the creator
deletes the party; the scheduler is untouched and a subsequent fire for
the party attempts no sends. -/
theorem delete_party_cascade_fire_noop_witness :
    (delete_party sysAccepted 1 1).2.sched = sysAccepted.sched
    ∧ send_party_reminder (delete_party sysAccepted 1 1).2.db 1 (fun _ => true) = [] :=
  ⟨(delete_party_cascade_fire_noop sysAccepted 1 1 (fun _ => true) (by decide)).2.2.2.2.2.2.1,
   (delete_party_cascade_fire_noop sysAccepted 1 1 (fun _ => true) (by decide)).2.2.2.2.2.2.2⟩

/-- C9 amended: account deletion removes the invite and attendee rows
referencing the deleted user and the party rows the user created, and
nothing else: every invite or attendee row of another user survives —
including rows for the deleted users parties, which are left orphaned —
and the scheduler is untouched, so reminder jobs of those parties stay
armed. -/
theorem delete_user_account_effect (s : Sys) (uid : Nat) :
    (delete_user_account s uid).1 = .ok ()
    ∧ (∀ i ∈ (delete_user_account s uid).2.db.invites, i.user_id ≠ uid)
    ∧ (∀ i ∈ s.db.invites, i.user_id ≠ uid → i ∈ (delete_user_account s uid).2.db.invites)
    ∧ (∀ a ∈ (delete_user_account s uid).2.db.attendees, a.user_id ≠ uid)
    ∧ (∀ a ∈ s.db.attendees, a.user_id ≠ uid → a ∈ (delete_user_account s uid).2.db.attendees)
    ∧ (∀ p ∈ (delete_user_account s uid).2.db.parties, p.creator_id ≠ some uid)
    ∧ (delete_user_account s uid).2.sched = s.sched := by
  refine ⟨rfl, ?_, ?_, ?_, ?_, ?_, rfl⟩
  · intro i hi
    simp only [delete_user_account, List.mem_filter, bne_iff_ne, ne_eq] at hi
    exact hi.2
  · intro i hi hne
    simp only [delete_user_account, List.mem_filter, bne_iff_ne, ne_eq]
    exact ⟨hi, hne⟩
  · intro a ha
    simp only [delete_user_account, List.mem_filter, bne_iff_ne, ne_eq] at ha
    exact ha.2
  · intro a ha hne
    simp only [delete_user_account, List.mem_filter, bne_iff_ne, ne_eq]
    exact ⟨ha, hne⟩
  · intro p hp
    simp only [delete_user_account, List.mem_filter, bne_iff_ne, ne_eq] at hp
    exact hp.2

/-- Witness for C9 amended: after alice deletes her account, bobs invite
row for her party is still present (it referenced another user, so the
effect theorem keeps it). -/
theorem delete_user_account_effect_witness :
    (⟨1, 2, .ACCEPTED⟩ : InviteRow) ∈ (delete_user_account sysAccepted 1).2.db.invites :=
  (delete_user_account_effect sysAccepted 1).2.2.1 ⟨1, 2, .ACCEPTED⟩ (by decide) (by decide)

/-- C6 amended: for an existing party whose creator is not the acting
user, both update_party and delete_party fail with
HTTPException(404, "Party not found or unauthorized") — the same error
value the handlers produce for a missing party, so the Unauthorized
condition is not a distinguishable kind — and the whole state (party
fields, invites, attendance, scheduler jobs) is returned unchanged. -/
theorem non_creator_update_delete_rejected (s : Sys) (now : Int) (uid pid : Nat)
    (upd : PartyUpdate)
    (hex : ∃ p ∈ s.db.parties, p.id = pid)
    (hnc : ∀ p ∈ s.db.parties, p.id = pid → p.creator_id ≠ some uid) :
    (update_party s now uid pid upd).1 = .error (.http 404 "Party not found or unauthorized")
    ∧ (update_party s now uid pid upd).2 = s
    ∧ (delete_party s uid pid).1 = .error (.http 404 "Party not found or unauthorized")
    ∧ (delete_party s uid pid).2 = s := by
  obtain ⟨p, hmem, hid⟩ := hex
  have hsome : (findParty s.db pid).isSome := by
    unfold findParty
    rw [List.find?_isSome]
    exact ⟨p, hmem, by simp [hid]⟩
  obtain ⟨q, hq⟩ := Option.isSome_iff_exists.mp hsome
  have hqid : q.id = pid := by
    have := List.find?_some hq
    simpa using this
  have hqmem : q ∈ s.db.parties := List.mem_of_find?_eq_some hq
  have hqcr : (q.creator_id != some uid) = true := by
    simpa [bne_iff_ne] using hnc q hqmem hqid
  have h1 : update_party s now uid pid upd =
      (.error (.http 404 "Party not found or unauthorized"), s) := by
    unfold update_party
    rw [hq]
    dsimp only
    rw [if_pos hqcr]
  have hdel : s.db.parties.find? (fun q => q.id == pid && q.creator_id == some uid) = none := by
    rw [List.find?_eq_none]
    intro q hqmem
    by_cases h : q.id = pid
    · have := hnc q hqmem h
      simp [h, this]
    · simp [h]
  refine ⟨by rw [h1], by rw [h1], ?_, ?_⟩
  · unfold delete_party
    rw [hdel]
  · unfold delete_party
    rw [hdel]

/-- Witness for C6 amended: bob (not the creator) tries to update and
delete alices party; both are rejected with the conflated 404 and the
state is unchanged. -/
theorem non_creator_update_delete_rejected_witness :
    (update_party sysBase 0 2 1 {}).1 = .error (.http 404 "Party not found or unauthorized")
    ∧ (delete_party sysBase 2 1).2 = sysBase :=
  ⟨(non_creator_update_delete_rejected sysBase 0 2 1 {} (by decide) (by decide)).1,
   (non_creator_update_delete_rejected sysBase 0 2 1 {} (by decide) (by decide)).2.2.2⟩

theorem nodup_keys_filter {α β : Type} (key : α → β) (p : α → Bool) (l : List α)
    (h : (l.map key).Nodup) : ((l.filter p).map key).Nodup :=
  ((List.filter_sublist l).map key).nodup h

theorem map_keys_of_update {α β : Type} (key : α → β) (f : α → α) (l : List α)
    (hf : ∀ a, key (f a) = key a) : (l.map f).map key = l.map key := by
  induction l with
  | nil => rfl
  | cons a t ih => simp [hf, ih]

theorem map_self_of_id_on_mem {α : Type} (l : List α) (f : α → α) (h : ∀ a ∈ l, f a = a) :
    l.map f = l := by
  induction l with
  | nil => rfl
  | cons a t ih => simp [h a (by simp), ih (fun b hb => h b (by simp [hb]))]

theorem nodup_append_single {β : Type} (l : List β) (b : β) (h : l.Nodup) (hb : b ∉ l) :
    (l ++ [b]).Nodup := by
  simp [List.nodup_append, h, hb]

theorem invite_any_iff (db : DB) (pid uid : Nat) :
    db.invites.any (fun i => i.party_id == pid && i.user_id == uid) = true
      ↔ (pid, uid) ∈ inviteKeys db := by
  constructor
  · intro h
    obtain ⟨i, hi, hp⟩ := List.any_eq_true.mp h
    simp only [Bool.and_eq_true, beq_iff_eq] at hp
    exact List.mem_map.mpr ⟨i, hi, by simp [hp.1, hp.2]⟩
  · intro h
    obtain ⟨i, hi, hp⟩ := List.mem_map.mp h
    simp only [Prod.ext_iff] at hp
    exact List.any_eq_true.mpr ⟨i, hi, by simp [hp.1, hp.2]⟩

theorem attendee_any_iff (db : DB) (pid uid : Nat) :
    db.attendees.any (fun a => a.party_id == pid && a.user_id == uid) = true
      ↔ (pid, uid) ∈ attendeeKeys db := by
  constructor
  · intro h
    obtain ⟨a, ha, hp⟩ := List.any_eq_true.mp h
    simp only [Bool.and_eq_true, beq_iff_eq] at hp
    exact List.mem_map.mpr ⟨a, ha, by simp [hp.1, hp.2]⟩
  · intro h
    obtain ⟨a, ha, hp⟩ := List.mem_map.mp h
    simp only [Prod.ext_iff] at hp
    exact List.any_eq_true.mpr ⟨a, ha, by simp [hp.1, hp.2]⟩

theorem insertInvite_eq_some {db db' : DB} {pid uid : Nat} {st : InviteStatus}
    (h : insertInvite db pid uid st = some db') :
    db'.invites = db.invites ++ [⟨pid, uid, st⟩]
    ∧ (pid, uid) ∉ inviteKeys db
    ∧ db'.attendees = db.attendees := by
  unfold insertInvite at h
  by_cases hc : db.invites.any (fun i => i.party_id == pid && i.user_id == uid) = true
  · rw [if_pos hc] at h
    cases h
  · rw [if_neg hc] at h
    injection h with h2
    subst h2
    exact ⟨rfl, fun hmem => hc ((invite_any_iff db pid uid).mpr hmem), rfl⟩

theorem insertAttendee_eq_some {db db' : DB} {pid uid : Nat}
    (h : insertAttendee db pid uid = some db') :
    db'.attendees = db.attendees ++ [⟨pid, uid⟩]
    ∧ (pid, uid) ∉ attendeeKeys db
    ∧ db'.invites = db.invites := by
  unfold insertAttendee at h
  by_cases hc : db.attendees.any (fun a => a.party_id == pid && a.user_id == uid) = true
  · rw [if_pos hc] at h
    cases h
  · rw [if_neg hc] at h
    injection h with h2
    subst h2
    exact ⟨rfl, fun hmem => hc ((attendee_any_iff db pid uid).mpr hmem), rfl⟩

theorem insertAttendee_none_of_mem (db : DB) (pid uid : Nat)
    (h : (pid, uid) ∈ attendeeKeys db) : insertAttendee db pid uid = none := by
  unfold insertAttendee
  rw [if_pos ((attendee_any_iff db pid uid).mpr h)]

theorem insertAttendee_some_of_not_mem (db : DB) (pid uid : Nat)
    (h : (pid, uid) ∉ attendeeKeys db) :
    insertAttendee db pid uid = some { db with attendees := db.attendees ++ [⟨pid, uid⟩] } := by
  unfold insertAttendee
  rw [if_neg (fun hc => h ((attendee_any_iff db pid uid).mp hc))]

theorem insertInvite_none_of_mem (db : DB) (pid uid : Nat) (st : InviteStatus)
    (h : (pid, uid) ∈ inviteKeys db) : insertInvite db pid uid st = none := by
  unfold insertInvite
  rw [if_pos ((invite_any_iff db pid uid).mpr h)]

theorem insertInvite_some_of_not_mem (db : DB) (pid uid : Nat) (st : InviteStatus)
    (h : (pid, uid) ∉ inviteKeys db) :
    insertInvite db pid uid st
      = some { db with invites := db.invites ++ [⟨pid, uid, st⟩] } := by
  unfold insertInvite
  rw [if_neg (fun hc => h ((invite_any_iff db pid uid).mp hc))]

theorem uniqueKeys_congr {db db' : DB} (h : UniqueKeys db)
    (hi : db'.invites = db.invites) (ha : db'.attendees = db.attendees) : UniqueKeys db' := by
  unfold UniqueKeys inviteKeys attendeeKeys at h ⊢
  rw [hi, ha]
  exact h

theorem uniqueKeys_insertInvite {db db' : DB} {pid uid : Nat} {st : InviteStatus}
    (h : UniqueKeys db) (hins : insertInvite db pid uid st = some db') : UniqueKeys db' := by
  obtain ⟨hinv, hnot, hatt⟩ := insertInvite_eq_some hins
  constructor
  · show (db'.invites.map (fun i => (i.party_id, i.user_id))).Nodup
    rw [hinv, List.map_append]
    exact nodup_append_single _ _ h.1 hnot
  · show (db'.attendees.map (fun a => (a.party_id, a.user_id))).Nodup
    rw [hatt]
    exact h.2

theorem uniqueKeys_insertAttendee {db db' : DB} {pid uid : Nat}
    (h : UniqueKeys db) (hins : insertAttendee db pid uid = some db') : UniqueKeys db' := by
  obtain ⟨hatt, hnot, hinv⟩ := insertAttendee_eq_some hins
  constructor
  · show (db'.invites.map (fun i => (i.party_id, i.user_id))).Nodup
    rw [hinv]
    exact h.1
  · show (db'.attendees.map (fun a => (a.party_id, a.user_id))).Nodup
    rw [hatt, List.map_append]
    exact nodup_append_single _ _ h.2 hnot

theorem insertInvitesLoop_preserves (pid : Nat) (uids : List Nat) (db db' : DB)
    (hloop : insertInvitesLoop db pid uids = some db') (h : UniqueKeys db) : UniqueKeys db' := by
  induction uids generalizing db with
  | nil =>
    unfold insertInvitesLoop at hloop
    injection hloop with h2
    subst h2
    exact h
  | cons u rest ih =>
    unfold insertInvitesLoop at hloop
    cases hins : insertInvite db pid u .PENDING with
    | none =>
      rw [hins] at hloop
      cases hloop
    | some db1 =>
      rw [hins] at hloop
      exact ih db1 hloop (uniqueKeys_insertInvite h hins)

theorem signup_preserves_keys (s : Sys) (a b c : String) (h : UniqueKeys s.db) :
    UniqueKeys (signup s a b c).2.db := by
  unfold signup
  by_cases h1 : s.db.users.any (fun u => u.email == b) = true
  · rw [if_pos h1]
    exact h
  · rw [if_neg h1]
    by_cases h2 : s.db.users.any (fun u => u.username == a || u.email == b) = true
    · rw [if_pos h2]
      exact h
    · rw [if_neg h2]
      exact uniqueKeys_congr h rfl rfl

theorem update_user_preserves_keys (s : Sys) (uid : Nat) (upd : UserUpdate)
    (h : UniqueKeys s.db) : UniqueKeys (update_user s uid upd).2.db := by
  unfold update_user
  cases hf : s.db.users.find? (fun u => u.id == uid) with
  | none =>
    exact h
  | some u =>
    dsimp only
    by_cases hc : s.db.users.any (fun v =>
        v.id != u.id && (v.username == (applyUserUpdate u upd).username
          || v.email == (applyUserUpdate u upd).email)) = true
    · rw [if_pos hc]
      exact h
    · rw [if_neg hc]
      exact uniqueKeys_congr h rfl rfl

theorem admin_delete_user_preserves_keys (s : Sys) (uid : Nat) (h : UniqueKeys s.db) :
    UniqueKeys (admin_delete_user s uid).2.db := by
  unfold admin_delete_user
  cases hf : s.db.users.find? (fun u => u.id == uid) with
  | none =>
    exact h
  | some u =>
    dsimp only
    exact ⟨h.1, nodup_keys_filter _ _ _ h.2⟩

theorem delete_user_account_preserves_keys (s : Sys) (uid : Nat) (h : UniqueKeys s.db) :
    UniqueKeys (delete_user_account s uid).2.db :=
  ⟨nodup_keys_filter _ _ _ h.1, nodup_keys_filter _ _ _ h.2⟩

theorem create_party_commit_preserves_keys (db1 : DB) (sched1 : Scheduler) (pid : Nat)
    (uids : List Nat) (h : UniqueKeys db1) :
    UniqueKeys (create_party_commit db1 sched1 pid uids).2.db := by
  unfold create_party_commit
  cases hloop : insertInvitesLoop db1 pid uids with
  | none => exact h
  | some db2 => exact insertInvitesLoop_preserves pid uids db1 db2 hloop h

theorem create_party_preserves_keys (s : Sys) (now : Int) (uid : Nat) (pc : PartyCreate)
    (h : UniqueKeys s.db) : UniqueKeys (create_party s now uid pc).2.db := by
  unfold create_party
  exact create_party_commit_preserves_keys _ _ _ _ (uniqueKeys_congr h rfl rfl)

theorem uniqueKeys_invites_map (db : DB) (f : InviteRow → InviteRow)
    (hf : ∀ i, (f i).party_id = i.party_id ∧ (f i).user_id = i.user_id)
    (h : UniqueKeys db) : UniqueKeys { db with invites := db.invites.map f } := by
  constructor
  · show ((db.invites.map f).map (fun i => (i.party_id, i.user_id))).Nodup
    rw [map_keys_of_update (fun i => (i.party_id, i.user_id)) f db.invites
      (fun a => by simp [(hf a).1, (hf a).2])]
    exact h.1
  · exact h.2

theorem respond_accept_commit_preserves_keys (s : Sys) (db1 : DB) (pid uid : Nat)
    (h1 : UniqueKeys db1) (h : UniqueKeys s.db) :
    UniqueKeys (respond_accept_commit s db1 pid uid).2.db := by
  unfold respond_accept_commit
  cases hins : insertAttendee db1 pid uid with
  | none => exact h
  | some db2 => exact uniqueKeys_insertAttendee h1 hins

theorem respond_to_invite_preserves_keys (s : Sys) (uid pid : Nat) (accept : Bool)
    (h : UniqueKeys s.db) : UniqueKeys (respond_to_invite s uid pid accept).2.db := by
  unfold respond_to_invite
  cases hp : findParty s.db pid with
  | none =>
    exact h
  | some p =>
    dsimp only
    cases hi : findInvite s.db uid pid with
    | none =>
      exact h
    | some inv =>
      dsimp only
      have hkeys : ∀ st : InviteStatus,
          UniqueKeys { s.db with invites := s.db.invites.map (fun i =>
            if i.user_id == uid && i.party_id == pid then { i with status := st } else i) } := by
        intro st
        apply uniqueKeys_invites_map s.db _ _ h
        intro i
        by_cases hc : (i.user_id == uid && i.party_id == pid) = true
        · rw [if_pos hc]
          exact ⟨rfl, rfl⟩
        · rw [if_neg hc]
          exact ⟨rfl, rfl⟩
      cases accept with
      | false => exact hkeys .DECLINED
      | true => exact respond_accept_commit_preserves_keys s _ pid uid (hkeys .ACCEPTED) h

theorem update_party_preserves_keys (s : Sys) (now : Int) (uid pid : Nat) (upd : PartyUpdate)
    (h : UniqueKeys s.db) : UniqueKeys (update_party s now uid pid upd).2.db := by
  unfold update_party
  cases hf : findParty s.db pid with
  | none =>
    exact h
  | some p =>
    dsimp only
    by_cases hc : (p.creator_id != some uid) = true
    · rw [if_pos hc]
      exact h
    · rw [if_neg hc]
      exact uniqueKeys_congr h rfl rfl

theorem delete_party_preserves_keys (s : Sys) (uid pid : Nat) (h : UniqueKeys s.db) :
    UniqueKeys (delete_party s uid pid).2.db := by
  unfold delete_party
  cases hf : s.db.parties.find? (fun p => p.id == pid && p.creator_id == some uid) with
  | none =>
    exact h
  | some p =>
    dsimp only
    exact ⟨nodup_keys_filter _ _ _ h.1, nodup_keys_filter _ _ _ h.2⟩

theorem remove_attendee_preserves_keys (s : Sys) (uid pid target : Nat) (h : UniqueKeys s.db) :
    UniqueKeys (remove_attendee s uid pid target).2.db := by
  unfold remove_attendee
  cases hf : findParty s.db pid with
  | none =>
    exact h
  | some p =>
    dsimp only
    by_cases hc : (p.creator_id != some uid) = true
    · rw [if_pos hc]
      exact h
    · rw [if_neg hc]
      exact ⟨h.1, nodup_keys_filter _ _ _ h.2⟩

theorem request_to_join_preserves_keys (s : Sys) (uid pid : Nat) (h : UniqueKeys s.db) :
    UniqueKeys (request_to_join s uid pid).2.db := by
  unfold request_to_join
  cases hf : findParty s.db pid with
  | none =>
    exact h
  | some p =>
    dsimp only
    by_cases hmem : (pid, uid) ∈ inviteKeys s.db
    · rw [insertInvite_none_of_mem _ pid uid .PENDING hmem]
      exact h
    · rw [insertInvite_some_of_not_mem _ pid uid .PENDING hmem]
      dsimp only
      by_cases hex : (findInvite { s.db with
          invites := s.db.invites ++ [⟨pid, uid, .PENDING⟩] } uid pid).isSome
      · rw [if_pos hex]
        exact h
      · rw [if_neg hex]
        constructor
        · show ((s.db.invites ++ [(⟨pid, uid, .PENDING⟩ : InviteRow)]).map
            (fun i => (i.party_id, i.user_id))).Nodup
          rw [List.map_append]
          exact nodup_append_single _ _ h.1 hmem
        · exact h.2

/-- C8: for every reachable state (any operation sequence run from the
empty initial state) the composite-key uniqueness of the two
association tables holds, and every single operation of the system
preserves it from any state satisfying it — the composite primary keys
of models.py reject any insert that would duplicate a
(party, user) pair. -/
theorem unique_keys_invariant :
    (∀ ops : List Op, UniqueKeys (runOps initSys ops).db)
    ∧ (∀ (s : Sys) (op : Op), UniqueKeys s.db → UniqueKeys (runOp s op).db) := by
  have hstep : ∀ (s : Sys) (op : Op), UniqueKeys s.db → UniqueKeys (runOp s op).db := by
    intro s op h
    cases op with
    | signupOp a b c => exact signup_preserves_keys s a b c h
    | updateUser uid upd => exact update_user_preserves_keys s uid upd h
    | adminDeleteUser uid => exact admin_delete_user_preserves_keys s uid h
    | deleteUserAccount uid => exact delete_user_account_preserves_keys s uid h
    | createParty now uid pc => exact create_party_preserves_keys s now uid pc h
    | respondToInvite uid pid accept => exact respond_to_invite_preserves_keys s uid pid accept h
    | updateParty now uid pid upd => exact update_party_preserves_keys s now uid pid upd h
    | deleteParty uid pid => exact delete_party_preserves_keys s uid pid h
    | removeAttendee uid pid target => exact remove_attendee_preserves_keys s uid pid target h
    | requestToJoin uid pid => exact request_to_join_preserves_keys s uid pid h
  refine ⟨?_, hstep⟩
  intro ops
  have hall : ∀ (s : Sys), UniqueKeys s.db → UniqueKeys (runOps s ops).db := by
    induction ops with
    | nil => exact fun s hs => hs
    | cons op rest ih => exact fun s hs => ih (runOp s op) (hstep s op hs)
  exact hall initSys ⟨List.nodup_nil, List.nodup_nil⟩

/-- Witness for C8: the accepted-state sample satisfies the invariant,
and it is preserved across a concrete respond_to_invite call. -/
theorem unique_keys_invariant_witness :
    UniqueKeys sysAccepted.db
    ∧ UniqueKeys (runOp sysAccepted (.respondToInvite 2 1 false)).db :=
  ⟨⟨by decide, by decide⟩,
   unique_keys_invariant.2 sysAccepted (.respondToInvite 2 1 false) ⟨by decide, by decide⟩⟩

theorem respond_accept_commit_of_mem (s : Sys) (db1 : DB) (pid uid : Nat)
    (hatt : db1.attendees = s.db.attendees)
    (hmem : (pid, uid) ∈ attendeeKeys s.db) :
    respond_accept_commit s db1 pid uid = (.error (.http 500 "IntegrityError"), s) := by
  have hkeys : attendeeKeys db1 = attendeeKeys s.db := by
    unfold attendeeKeys
    rw [hatt]
  unfold respond_accept_commit
  rw [insertAttendee_none_of_mem db1 pid uid (hkeys ▸ hmem)]
  rfl

theorem respond_accept_commit_of_not_mem (s : Sys) (db1 : DB) (pid uid : Nat)
    (hatt : db1.attendees = s.db.attendees)
    (hmem : (pid, uid) ∉ attendeeKeys s.db) :
    respond_accept_commit s db1 pid uid
      = (.ok .ACCEPTED,
         { s with db := { db1 with attendees := db1.attendees ++ [⟨pid, uid⟩] } }) := by
  have hkeys : attendeeKeys db1 = attendeeKeys s.db := by
    unfold attendeeKeys
    rw [hatt]
  unfold respond_accept_commit
  rw [insertAttendee_some_of_not_mem db1 pid uid (hkeys ▸ hmem)]

/-- C4 amended: re-responding to an existing (in particular an already
resolved) invite overwrites the status and succeeds when declining, and
when accepting with no attendance row for the (user, party) pair; but
accepting while an attendance row already exists fails with the generic
HTTP 500 (the duplicate attendee INSERT raises IntegrityError) and the
rollback leaves all state unchanged.  Declining an invite whose status
is already DECLINED leaves the whole state unchanged (an idempotent
overwrite); a decline never removes an existing attendance row. -/
theorem respond_again_policy (s : Sys) (uid pid : Nat)
    (hp : (findParty s.db pid).isSome)
    (hi : (findInvite s.db uid pid).isSome) :
    ((pid, uid) ∈ attendeeKeys s.db →
      (respond_to_invite s uid pid true).1 = .error (.http 500 "IntegrityError")
      ∧ (respond_to_invite s uid pid true).2 = s)
    ∧ ((pid, uid) ∉ attendeeKeys s.db →
      (respond_to_invite s uid pid true).1 = .ok .ACCEPTED
      ∧ (respond_to_invite s uid pid true).2.db.attendees
          = s.db.attendees ++ [⟨pid, uid⟩])
    ∧ (respond_to_invite s uid pid false).1 = .ok .DECLINED
    ∧ (respond_to_invite s uid pid false).2.db.attendees = s.db.attendees
    ∧ ((∀ i ∈ s.db.invites, i.user_id = uid → i.party_id = pid → i.status = .DECLINED) →
      (respond_to_invite s uid pid false).2 = s) := by
  obtain ⟨p, hp1⟩ := Option.isSome_iff_exists.mp hp
  obtain ⟨inv, hi1⟩ := Option.isSome_iff_exists.mp hi
  have hresp_true : respond_to_invite s uid pid true
      = respond_accept_commit s
          { s.db with invites := s.db.invites.map (fun i =>
              if i.user_id == uid && i.party_id == pid then
                { i with status := InviteStatus.ACCEPTED } else i) } pid uid := by
    unfold respond_to_invite
    rw [hp1, hi1]
    rfl
  have hresp_false : respond_to_invite s uid pid false
      = (.ok .DECLINED, { s with db := { s.db with invites := s.db.invites.map (fun i =>
          if i.user_id == uid && i.party_id == pid then
            { i with status := InviteStatus.DECLINED } else i) } }) := by
    unfold respond_to_invite
    rw [hp1, hi1]
    rfl
  refine ⟨?_, ?_, ?_, ?_, ?_⟩
  · intro hmem
    rw [hresp_true,
      respond_accept_commit_of_mem s { s.db with invites := s.db.invites.map (fun i =>
        if i.user_id == uid && i.party_id == pid then
          { i with status := InviteStatus.ACCEPTED } else i) } pid uid rfl hmem]
    exact ⟨rfl, rfl⟩
  · intro hmem
    rw [hresp_true,
      respond_accept_commit_of_not_mem s { s.db with invites := s.db.invites.map (fun i =>
        if i.user_id == uid && i.party_id == pid then
          { i with status := InviteStatus.ACCEPTED } else i) } pid uid rfl hmem]
    exact ⟨rfl, rfl⟩
  · rw [hresp_false]
  · rw [hresp_false]
  · intro hall
    rw [hresp_false]
    have hmap : s.db.invites.map (fun i =>
        if i.user_id == uid && i.party_id == pid then
          { i with status := InviteStatus.DECLINED } else i) = s.db.invites := by
      apply map_self_of_id_on_mem
      intro i himem
      by_cases hc : (i.user_id == uid && i.party_id == pid) = true
      · rw [if_pos hc]
        simp only [Bool.and_eq_true, beq_iff_eq] at hc
        have hst := hall i himem hc.1 hc.2
        cases i with
        | mk a b c =>
          simp only at hst
          rw [hst]
      · rw [if_neg hc]
    rw [hmap]

/-- Witness for C4 amended at the accepted sample state: bob declines
his already-resolved invite; the call succeeds with DECLINED and the
attendance rows are untouched. -/
theorem respond_again_policy_witness :
    (respond_to_invite sysAccepted 2 1 false).1 = .ok .DECLINED
    ∧ (respond_to_invite sysAccepted 2 1 false).2.db.attendees = sysAccepted.db.attendees :=
  ⟨(respond_again_policy sysAccepted 2 1 (by decide) (by decide)).2.2.1,
   (respond_again_policy sysAccepted 2 1 (by decide) (by decide)).2.2.2.1⟩

/-- C10: signup explicitly rejects only a duplicate email, with the
handled HTTPException(400, "Email already registered") raised before any
insert; a fresh email combined with an already-taken username passes the
handler check and dies on the UNIQUE constraint at commit — an
unhandled IntegrityError, which is not equal to any handled
HTTPException value. -/
theorem signup_email_vs_username (s : Sys) (username email password : String) :
    ((∃ u ∈ s.db.users, u.email = email) →
      (signup s username email password).1 = .error (.http 400 "Email already registered")
      ∧ (signup s username email password).2 = s)
    ∧ ((∀ u ∈ s.db.users, u.email ≠ email) → (∃ u ∈ s.db.users, u.username = username) →
      (signup s username email password).1 = .error .integrityError
      ∧ (signup s username email password).2 = s
      ∧ ∀ code detail, (signup s username email password).1 ≠ .error (.http code detail)) := by
  constructor
  · intro hex
    obtain ⟨u, hu, he⟩ := hex
    have hany : s.db.users.any (fun v => v.email == email) = true :=
      List.any_eq_true.mpr ⟨u, hu, by simp [he]⟩
    unfold signup
    rw [if_pos hany]
    exact ⟨rfl, rfl⟩
  · intro hfresh hex
    have hnot : ¬ s.db.users.any (fun v => v.email == email) = true := by
      intro hc
      obtain ⟨u, hu, he⟩ := List.any_eq_true.mp hc
      exact hfresh u hu (by simpa using he)
    obtain ⟨u, hu, hn⟩ := hex
    have hany2 : s.db.users.any (fun v => v.username == username || v.email == email) = true :=
      List.any_eq_true.mpr ⟨u, hu, by simp [hn]⟩
    unfold signup
    rw [if_neg hnot, if_pos hany2]
    refine ⟨rfl, rfl, ?_⟩
    intro code detail hcon
    exact ApiError.noConfusion (Except.error.inj hcon)

/-- Witness for C10: in the base sample, signing up with alices email is
rejected with the 400 Conflict, while a fresh email with the taken
username alice surfaces the raw IntegrityError. -/
theorem signup_email_vs_username_witness :
    (signup sysBase "charlie" "alice@example.com" "pw").1
      = .error (.http 400 "Email already registered")
    ∧ (signup sysBase "alice" "charlie@example.com" "pw").1 = .error .integrityError :=
  ⟨((signup_email_vs_username sysBase "charlie" "alice@example.com" "pw").1 (by decide)).1,
   ((signup_email_vs_username sysBase "alice" "charlie@example.com" "pw").2
      (by decide) (by decide)).1⟩

end DndPlanner
